import Mathlib

/-!
Verification development for the blurred-clustering algorithm of
src/larreco/RecoAlg/BlurredClusteringAlg.cxx.

The C++ code is shallowly embedded: machine doubles are modelled as
rationals (only comparisons, sums, products and one division appear on
the paths the claims touch), C++ ints as integers, and the dense 2D
grids as total functions from coordinates to values (all grid accesses
on the embedded paths are in bounds by construction of the bounds; the
one place where the C++ allocation itself is wrong, the empty-input
dimensions, is modelled explicitly through the dimension arithmetic).
C++ integer division and float-to-int conversion truncate toward zero,
which is Int.tdiv.
-/

namespace BlurredClustering

/-- Truncation toward zero of a rational, as the C++ conversion from a
floating point value to int. -/
def cppTrunc (q : ℚ) : ℤ := q.num.tdiv q.den

/-- C++ std::abs on a rational value. -/
def ratAbs (q : ℚ) : ℚ := if q < 0 then -q else q

/-- One detector hit, as the fields of recob::Hit that the algorithm
reads: the globally normalised wire coordinate (result of GlobalWire,
an external service, so stored directly), PeakTime, Integral and RMS.
The tag distinguishes distinct art pointers. -/
structure Hit where
  wire : ℤ
  peakTime : ℚ
  integral : ℚ
  rms : ℚ
  tag : ℕ
deriving DecidableEq, Repr

/-- Integer tick of a hit: the C++ code computes int tick = (int)PeakTime. -/
def Hit.tick (h : Hit) : ℤ := cppTrunc h.peakTime

/-- The four histogram-bound member fields fLowerHistWire, fUpperHistWire,
fLowerHistTick, fUpperHistTick set by ConvertRecobHitsToVector. -/
structure ImgBounds where
  lowerHistWire : ℤ
  upperHistWire : ℤ
  lowerHistTick : ℤ
  upperHistTick : ℤ
deriving DecidableEq, Repr

/-- Accumulator for the bound scan of ConvertRecobHitsToVector, lines
181 to 189: int variables lowerTick, upperTick, lowerWire, upperWire. -/
structure RawBounds where
  lowerTick : ℤ
  upperTick : ℤ
  lowerWire : ℤ
  upperWire : ℤ
deriving DecidableEq, Repr

/-- One step of the bound scan: each comparison is float against int and
each assignment truncates PeakTime to int. -/
def scanHitBounds (rb : RawBounds) (h : Hit) : RawBounds :=
  { lowerTick := if h.peakTime < (rb.lowerTick : ℚ) then cppTrunc h.peakTime else rb.lowerTick
    upperTick := if h.peakTime > (rb.upperTick : ℚ) then cppTrunc h.peakTime else rb.upperTick
    lowerWire := if h.wire < rb.lowerWire then h.wire else rb.lowerWire
    upperWire := if h.wire > rb.upperWire then h.wire else rb.upperWire }

/-- Bounds of the image, ConvertRecobHitsToVector lines 181 to 193:
lowerTick starts at ReadOutWindowSize, lowerWire at MaxWires, the upper
bounds at 0, and the final histogram bounds add a 20 cell margin. -/
def computeBounds (readoutWindow maxWires : ℤ) (hits : List Hit) : ImgBounds :=
  let rb := hits.foldl scanHitBounds ⟨readoutWindow, 0, maxWires, 0⟩
  ⟨rb.lowerWire - 20, rb.upperWire + 20, rb.lowerTick - 20, rb.upperTick + 20⟩

/-- Wire dimension of the image: the first constructor argument of the
image_local vector, fUpperHistWire - fLowerHistWire (a C++ int that is
converted to size_t by the vector constructor). -/
def imageWireDim (b : ImgBounds) : ℤ := b.upperHistWire - b.lowerHistWire

/-- Tick dimension of the image: fUpperHistTick - fLowerHistTick. -/
def imageTickDim (b : ImgBounds) : ℤ := b.upperHistTick - b.lowerHistTick

/-- The three outputs of the hit fill loop: charge image and width image
(indexed by local wire and local tick) and the hit map fHitMap (indexed
by global wire and global tick). -/
structure ImgState where
  image : ℤ → ℤ → ℚ
  widths : ℤ → ℤ → ℚ
  hitMap : ℤ → ℤ → Option Hit

/-- Pointwise update of a rational grid. -/
def upd2 (f : ℤ → ℤ → ℚ) (a b : ℤ) (v : ℚ) : ℤ → ℤ → ℚ :=
  fun x y => if x = a ∧ y = b then v else f x y

/-- Pointwise update of the hit map. -/
def updHitMap (m : ℤ → ℤ → Option Hit) (a b : ℤ) (h : Hit) : ℤ → ℤ → Option Hit :=
  fun x y => if x = a ∧ y = b then some h else m x y

/-- The body of the hit fill loop, ConvertRecobHitsToVector lines 203 to
216: a hit overwrites the cell charge, the cell width and the hit map
entry exactly when its charge exceeds the charge already stored at its
local cell. -/
def fillHit (b : ImgBounds) (st : ImgState) (h : Hit) : ImgState :=
  if h.integral > st.image (h.wire - b.lowerHistWire) (h.tick - b.lowerHistTick) then
    { image := upd2 st.image (h.wire - b.lowerHistWire) (h.tick - b.lowerHistTick) h.integral
      widths := upd2 st.widths (h.wire - b.lowerHistWire) (h.tick - b.lowerHistTick) h.rms
      hitMap := updHitMap st.hitMap h.wire h.tick h }
  else st

/-- Fresh image state: both grids zero, hit map empty. -/
def emptyImgState : ImgState := ⟨fun _ _ => 0, fun _ _ => 0, fun _ _ => none⟩

/-- ConvertRecobHitsToVector: compute the bounds, then fill the charge
image, the width image and fHitMap from the hit list. -/
def convertRecobHitsToVector (readoutWindow maxWires : ℤ) (hits : List Hit) :
    ImgBounds × ImgState :=
  (computeBounds readoutWindow maxWires hits,
   hits.foldl (fillHit (computeBounds readoutWindow maxWires hits)) emptyImgState)

/-- ConvertWireTickToBin, line 227: bin = ybin * image.size() + xbin. -/
def convertWireTickToBin (nbinsx xbin ybin : ℕ) : ℕ := ybin * nbinsx + xbin

/-- ConvertBinToCharge, lines 231 to 238: read the grid at
(bin mod size, bin div size). -/
def convertBinToCharge (img : ℤ → ℤ → ℚ) (nbinsx bin : ℕ) : ℚ :=
  img ((bin % nbinsx : ℕ) : ℤ) ((bin / nbinsx : ℕ) : ℤ)

/-- ConvertBinToRecobHit, lines 126 to 147: split the linear bin by the
wire dimension, shift by the lower bounds minus one, and look the
resulting global coordinates up in fHitMap. -/
def convertBinToRecobHit (b : ImgBounds) (hitMap : ℤ → ℤ → Option Hit)
    (nbinsx bin : ℕ) : Option Hit :=
  hitMap (((bin % nbinsx : ℕ) : ℤ) + b.lowerHistWire - 1)
         (((bin / nbinsx : ℕ) : ℤ) + b.lowerHistTick - 1)

/-- ConvertBinsToRecobHits, lines 106 to 124: keep the non-null lookups. -/
def convertBinsToRecobHits (b : ImgBounds) (hitMap : ℤ → ℤ → Option Hit)
    (nbinsx : ℕ) (bins : List ℕ) : List Hit :=
  bins.filterMap (convertBinToRecobHit b hitMap nbinsx)

/-- ConvertBinsToClusters, lines 149 to 174: materialise each bin cluster
and keep it only if at least fMinSize real hits survive. -/
def convertBinsToClusters (b : ImgBounds) (hitMap : ℤ → ℤ → Option Hit)
    (nbinsx minSize : ℕ) (allClusterBins : List (List ℕ)) : List (List Hit) :=
  (allClusterBins.map (convertBinsToRecobHits b hitMap nbinsx)).filter
    (fun hs => !decide (hs.length < minSize))

/-- GetTimeOfBin, lines 618 to 628: default -10000, else PeakTime of the
hit found by ConvertBinToRecobHit. -/
def getTimeOfBin (b : ImgBounds) (hitMap : ℤ → ℤ → Option Hit)
    (nbinsx bin : ℕ) : ℚ :=
  match convertBinToRecobHit b hitMap nbinsx bin with
  | none => -10000
  | some h => h.peakTime

/-- Sums accumulated by the least squares scan of FindBlurringParameters,
lines 300 to 312 (all doubles in the C++ code). -/
structure LsqSums where
  nhits : ℚ
  sumx : ℚ
  sumy : ℚ
  sumx2 : ℚ
  sumxy : ℚ
deriving DecidableEq, Repr

/-- One point of the hit map added to the least squares sums. -/
def lsqStep (s : LsqSums) (p : ℤ × ℤ) : LsqSums :=
  ⟨s.nhits + 1, s.sumx + (p.1 : ℚ), s.sumy + (p.2 : ℚ),
   s.sumx2 + (p.1 : ℚ) * (p.1 : ℚ), s.sumxy + (p.1 : ℚ) * (p.2 : ℚ)⟩

/-- The least squares sums over the (wire, tick) point set of fHitMap. -/
def lsqSums (pts : List (ℤ × ℤ)) : LsqSums := pts.foldl lsqStep ⟨0, 0, 0, 0, 0⟩

/-- Denominator of the gradient in FindBlurringParameters line 313:
nhits * sumx2 - sumx * sumx. The C++ code divides by this value with no
guard against zero. -/
def lsqDenominator (pts : List (ℤ × ℤ)) : ℚ :=
  (lsqSums pts).nhits * (lsqSums pts).sumx2 - (lsqSums pts).sumx * (lsqSums pts).sumx

/-- Numerator of the gradient in FindBlurringParameters line 313. -/
def lsqNumerator (pts : List (ℤ × ℤ)) : ℚ :=
  (lsqSums pts).nhits * (lsqSums pts).sumxy - (lsqSums pts).sumx * (lsqSums pts).sumy

/-- The gradient as the C++ code computes it, an unguarded division (in
IEEE doubles a zero denominator yields NaN or an infinity; rational
division by zero is junk, and the claim about this line is settled by
showing the denominator is exactly zero on wire-collinear input). -/
def lsqGradient (pts : List (ℤ × ℤ)) : ℚ := lsqNumerator pts / lsqDenominator pts

/-- Kernel scale factor of GaussianBlur line 562:
kernel_scale = fMaxTickWidthScale + 1. -/
def kernelScale (maxTickWidthScale : ℤ) : ℤ := maxTickWidthScale + 1

/-- Kernel width, GaussianBlur lines 565 and 567: 2 * blurwire + 1. -/
def kernelWidth (blurwire : ℤ) : ℤ := 2 * blurwire + 1

/-- Kernel height, GaussianBlur line 568:
2 * blurtick * kernel_scale + 1, one shared value for every tier. -/
def kernelHeight (blurtick maxTickWidthScale : ℤ) : ℤ :=
  2 * blurtick * kernelScale maxTickWidthScale + 1

/-- Scaled tick sigma of one tier, GaussianBlur line 584:
sigmatick_scaled = sigmatick times the tier value. -/
def sigmaTickScaled (sigmatick tier : ℤ) : ℤ := sigmatick * tier

/-- Half extent of the tick axis loop of the kernel fill, GaussianBlur
line 588: j runs from -blurtick * kernel_scale to blurtick * kernel_scale. -/
def codeTickHalfWindow (blurtick maxTickWidthScale : ℤ) : ℤ :=
  blurtick * kernelScale maxTickWidthScale

/-- Kernel weight at offset (i, j) for one tier, GaussianBlur lines 591
to 595, transcribed term for term. -/
noncomputable def codeKernelValue (sigmawire sigmatick tier : ℤ) (i j : ℤ) : ℝ :=
  1 / Real.sqrt (2 * (sigmawire : ℝ) * (sigmawire : ℝ) * Real.pi) *
      Real.exp (-(i : ℝ) * (i : ℝ) / (2 * (sigmawire : ℝ) * (sigmawire : ℝ))) *
    (1 / Real.sqrt (2 * (sigmaTickScaled sigmatick tier : ℝ) *
        (sigmaTickScaled sigmatick tier : ℝ) * Real.pi)) *
      Real.exp (-(j : ℝ) * (j : ℝ) /
        (2 * (sigmaTickScaled sigmatick tier : ℝ) * (sigmaTickScaled sigmatick tier : ℝ)))

/-- Modelled from the spec: the weight formula of section 4.3, the
product of two zero-mean Gaussian densities
exp(-x squared over 2 sw squared) / sqrt(2 pi sw squared) times the same
in the other axis. Used to compare the code kernel against the spec. -/
noncomputable def specGaussPair (sw st : ℝ) (x y : ℝ) : ℝ :=
  Real.exp (-(x ^ 2) / (2 * sw ^ 2)) / Real.sqrt (2 * Real.pi * sw ^ 2) *
    (Real.exp (-(y ^ 2) / (2 * st ^ 2)) / Real.sqrt (2 * Real.pi * st ^ 2))

/-- Flat index into the kernel vector used by Convolve line 278:
kernel_width * (kernel_height / 2 + blury) + (kernel_width / 2 + blurx),
with C++ truncating integer division. -/
def convolveKey (blurwire blurtick maxTickWidthScale blurx blury : ℤ) : ℤ :=
  kernelWidth blurwire * ((kernelHeight blurtick maxTickWidthScale).tdiv 2 + blury) +
    ((kernelWidth blurwire).tdiv 2 + blurx)

/-- Size of the flat kernel vector allocated in GaussianBlur line 583:
kernel_width * kernel_height. -/
def kernelFlatSize (blurwire blurtick maxTickWidthScale : ℤ) : ℤ :=
  kernelWidth blurwire * kernelHeight blurtick maxTickWidthScale

/-- Convolve line 248: lowerWidth = -width / 2 (C++ division truncates
toward zero). -/
def lowerWidth (blurwire : ℤ) : ℤ := (-(kernelWidth blurwire)).tdiv 2

/-- Convolve line 249: upperWidth = (width + 1) / 2. -/
def upperWidth (blurwire : ℤ) : ℤ := (kernelWidth blurwire + 1).tdiv 2

/-- Convolve line 250: lowerHeight = -height / 2 with height = 2 * blurtick + 1. -/
def lowerHeight (blurtick : ℤ) : ℤ := (-(2 * blurtick + 1)).tdiv 2

/-- Convolve line 251: upperHeight = (height + 1) / 2. -/
def upperHeight (blurtick : ℤ) : ℤ := (2 * blurtick + 1 + 1).tdiv 2

/-- Raw tick scale of a source cell, Convolve line 267: the double
division widths over fTickWidthRescale assigned to an int. -/
def tickScaleRaw (width rescale : ℚ) : ℤ := cppTrunc (width / rescale)

/-- Clamped tick scale, Convolve line 268:
max(min(tick_scale, fMaxTickWidthScale), 1). -/
def clampTickScale (ts maxTickWidthScale : ℤ) : ℤ := max (min ts maxTickWidthScale) 1

/-- The configuration check of reconfigure lines 60 to 61: a fatal
configuration error unless the tier value 1 is configured. -/
def reconfigureCheck (kernels : List ℤ) : Except String Unit :=
  if (1 : ℤ) ∈ kernels then Except.ok ()
  else Except.error "BlurredClusteringAlg: Error: fKernels requires 1 to be present"

/-- The downward kernel search of Convolve lines 269 to 271: starting at
the clamped tick scale, decrement until an index contained in fKernels
is found. The C++ loop decrements without a lower bound; the model
returns none when the scan passes 0, which the kernel coverage theorem
shows is unreachable when tier 1 is configured. -/
def searchKernelIndex (kernels : List ℤ) : ℕ → Option ℕ
  | 0 => if (0 : ℤ) ∈ kernels then some 0 else none
  | n + 1 => if ((n + 1 : ℕ) : ℤ) ∈ kernels then some (n + 1) else searchKernelIndex kernels n

/-- Parameters of FindClusters read from the configuration. -/
structure ClusterParams where
  clusterWireDistance : ℤ
  clusterTickDistance : ℤ
  neighboursThreshold : ℤ
  minNeighbours : ℤ
  minSize : ℕ
  minSeed : ℚ
  timeThreshold : ℚ
  chargeThreshold : ℚ

/-- Inputs shared by every loop of FindClusters: parameters, the bounds
and hit map used by GetTimeOfBin, the blurred image and its dimensions. -/
structure Ctx where
  p : ClusterParams
  b : ImgBounds
  hm : ℤ → ℤ → Option Hit
  blurred : ℤ → ℤ → ℚ
  nbinsx : ℕ
  nbinsy : ℕ

/-- PassesTimeCut, lines 672 to 679: true when some recorded time lies
strictly within the time threshold of the candidate time. -/
def passesTimeCut (thr : ℚ) (times : List ℚ) (time : ℚ) : Bool :=
  times.any (fun t => ratAbs (time - t) < thr)

/-- The guard of FindClusters line 423 in the growing phase: a candidate
is rejected by the time cut only when its time is positive, the cluster
already has recorded times, and PassesTimeCut fails. -/
def growTimeCutFails (thr : ℚ) (times : List ℚ) (time : ℚ) : Bool :=
  decide (time > 0) && !times.isEmpty && !passesTimeCut thr times time

/-- The eight neighbour offsets of the x and y loops of NumNeighbours and
of the hole filling phase, in C++ iteration order, excluding (0, 0). -/
def neighbourOffsets : List (ℤ × ℤ) :=
  [(-1, -1), (-1, 0), (-1, 1), (0, -1), (0, 1), (1, -1), (1, 0), (1, 1)]

/-- NumNeighbours, lines 650 to 670: count the used neighbours of a bin.
Callers only pass interior bins, so all eight accessed indices are in
range and nonnegative. -/
def numNeighbours (nbinsx : ℕ) (used : ℕ → Bool) (bin : ℤ) : ℕ :=
  (neighbourOffsets.filter (fun c => used (bin + c.1 + c.2 * nbinsx).toNat)).length

/-- Pointwise update of the used mask. -/
def updUsed (u : ℕ → Bool) (i : ℕ) (v : Bool) : ℕ → Bool :=
  fun j => if j = i then v else u j

/-- Unmark every cell of a cluster, as the discard loops of FindClusters
lines 447 to 451 and 514 to 518. -/
def unmarkAll (used : ℕ → Bool) (cells : List ℕ) : ℕ → Bool :=
  cells.foldl (fun u c => updUsed u c false) used

/-- State of one cluster formation attempt: the shared used mask, the
growing bin list, the recorded times, and the nadded counter of the
growing loop. -/
structure GrowState where
  used : ℕ → Bool
  cluster : List ℕ
  times : List ℚ
  nadded : ℕ

/-- Admission of one candidate in the growing phase, FindClusters lines
427 to 434: mark used, append to the cluster, record the time when it is
positive, count the addition. -/
def admitGrow (st : GrowState) (bin : ℕ) (time : ℚ) : GrowState :=
  { used := updUsed st.used bin true
    cluster := st.cluster ++ [bin]
    times := if time > 0 then st.times ++ [time] else st.times
    nadded := st.nadded + 1 }

/-- The closed list of integers from a to b inclusive, as a C++ for loop
from a while at most b (empty when b is smaller than a). -/
def intRange (a b : ℤ) : List ℤ :=
  (List.range (b + 1 - a).toNat).map (fun i => a + (i : ℤ))

/-- The candidate offsets examined around one clustered bin in the
growing phase, FindClusters lines 406 to 407: the x loop is outer, the y
loop inner. -/
def growCandidates (p : ClusterParams) (binx biny : ℤ) : List (ℤ × ℤ) :=
  (intRange (binx - p.clusterWireDistance) (binx + p.clusterWireDistance)).flatMap
    (fun x => (intRange (biny - p.clusterTickDistance) (biny + p.clusterTickDistance)).map
      (fun y => (x, y)))

/-- Processing of one growing-phase candidate, FindClusters lines 408 to
434: skip the centre cell and out-of-image cells, skip bins out of
range, skip used bins, apply the time cut guard, then admit when the
blurred charge exceeds the charge threshold. -/
def growCandidate (ctx : Ctx) (binx biny : ℤ) (st : GrowState) (c : ℤ × ℤ) : GrowState :=
  if (c.1 = binx ∧ c.2 = biny) ∨ (c.1 ≥ (ctx.nbinsx : ℤ) ∨ c.2 ≥ (ctx.nbinsy : ℤ)) ∨
      (c.1 < 0 ∨ c.2 < 0) then st
  else if c.2 * (ctx.nbinsx : ℤ) + c.1 ≥ (ctx.nbinsx : ℤ) * (ctx.nbinsy : ℤ) ∨
      c.2 * (ctx.nbinsx : ℤ) + c.1 < 0 then st
  else if st.used (c.2 * (ctx.nbinsx : ℤ) + c.1).toNat then st
  else if growTimeCutFails ctx.p.timeThreshold st.times
      (getTimeOfBin ctx.b ctx.hm ctx.nbinsx (c.2 * (ctx.nbinsx : ℤ) + c.1).toNat) then st
  else if convertBinToCharge ctx.blurred ctx.nbinsx (c.2 * (ctx.nbinsx : ℤ) + c.1).toNat >
      ctx.p.chargeThreshold then
    admitGrow st (c.2 * (ctx.nbinsx : ℤ) + c.1).toNat
      (getTimeOfBin ctx.b ctx.hm ctx.nbinsx (c.2 * (ctx.nbinsx : ℤ) + c.1).toNat)
  else st

/-- One scan of the growing loop over the cluster, FindClusters lines 398
to 439. The C++ loop bound cluster.size() is reevaluated each iteration,
so bins appended during the scan are processed by the same scan; the
index recursion is paced by a fuel argument, and every claim about this
function is proved for all fuel values. -/
def growScanAux (ctx : Ctx) : ℕ → ℕ → GrowState → GrowState
  | 0, _, st => st
  | fuel + 1, i, st =>
    match st.cluster[i]? with
    | none => st
    | some bin =>
      growScanAux ctx fuel (i + 1)
        ((growCandidates ctx.p ((bin % ctx.nbinsx : ℕ) : ℤ)
            (((bin / ctx.nbinsx) % ctx.nbinsy : ℕ) : ℤ)).foldl
          (growCandidate ctx ((bin % ctx.nbinsx : ℕ) : ℤ)
            (((bin / ctx.nbinsx) % ctx.nbinsy : ℕ) : ℤ)) st)

/-- The outer growing loop, FindClusters lines 394 to 444: reset nadded,
scan, stop when a scan admits nothing. -/
def growLoop (ctx : Ctx) : ℕ → GrowState → GrowState
  | 0, st => st
  | fuel + 1, st =>
    let st1 := growScanAux ctx (ctx.nbinsx * ctx.nbinsy + 1) 0
      { st with nadded := 0 }
    if st1.nadded = 0 then st1 else growLoop ctx fuel st1

/-- The admission test of the hole filling phase, FindClusters line 469:
unused, strictly more used neighbours than fNeighboursThreshold, and
PassesTimeCut applied unconditionally. -/
def holeFillAdmit (ctx : Ctx) (st : GrowState) (nb : ℕ) (time : ℚ) : Bool :=
  !st.used nb &&
    decide ((numNeighbours ctx.nbinsx st.used (nb : ℤ) : ℤ) > ctx.p.neighboursThreshold) &&
    passesTimeCut ctx.p.timeThreshold st.times time

/-- Modelled from the claim of C3: hole filling admission using the same
time cut rule as the growing phase, where a candidate is only rejected
when growTimeCutFails holds. Compared against holeFillAdmit. -/
def holeFillAdmitClaimed (ctx : Ctx) (st : GrowState) (nb : ℕ) (time : ℚ) : Bool :=
  !st.used nb &&
    decide ((numNeighbours ctx.nbinsx st.used (nb : ℤ) : ℤ) > ctx.p.neighboursThreshold) &&
    !growTimeCutFails ctx.p.timeThreshold st.times time

/-- Admission of one hole filling candidate, FindClusters lines 470 to
475: mark used, append, record a positive time. -/
def admitHole (st : GrowState) (bin : ℕ) (time : ℚ) : GrowState :=
  { st with used := updUsed st.used bin true
            cluster := st.cluster ++ [bin]
            times := if time > 0 then st.times ++ [time] else st.times }

/-- Processing of one neighbour offset in the hole filling phase,
FindClusters lines 462 to 476: compute the neighbouring bin, skip image
border bins, then admit through holeFillAdmit. -/
def holeFillCandidate (ctx : Ctx) (bin : ℕ) (st : GrowState) (c : ℤ × ℤ) : GrowState :=
  if (bin : ℤ) + c.1 + c.2 * (ctx.nbinsx : ℤ) < (ctx.nbinsx : ℤ) ∨
      ((bin : ℤ) + c.1 + c.2 * (ctx.nbinsx : ℤ)) % (ctx.nbinsx : ℤ) = 0 ∨
      ((bin : ℤ) + c.1 + c.2 * (ctx.nbinsx : ℤ)) % (ctx.nbinsx : ℤ) = (ctx.nbinsx : ℤ) - 1 ∨
      (bin : ℤ) + c.1 + c.2 * (ctx.nbinsx : ℤ) ≥ (ctx.nbinsx : ℤ) * ((ctx.nbinsy : ℤ) - 1) then st
  else if holeFillAdmit ctx st ((bin : ℤ) + c.1 + c.2 * (ctx.nbinsx : ℤ)).toNat
      (getTimeOfBin ctx.b ctx.hm ctx.nbinsx ((bin : ℤ) + c.1 + c.2 * (ctx.nbinsx : ℤ)).toNat) then
    admitHole st ((bin : ℤ) + c.1 + c.2 * (ctx.nbinsx : ℤ)).toNat
      (getTimeOfBin ctx.b ctx.hm ctx.nbinsx ((bin : ℤ) + c.1 + c.2 * (ctx.nbinsx : ℤ)).toNat)
  else st

/-- The hole filling pass, FindClusters lines 454 to 481: a single
indexed scan over the cluster (which may grow during the scan), each
clustered bin contributing its eight neighbour offsets. -/
def holeFillScan (ctx : Ctx) : ℕ → ℕ → GrowState → GrowState
  | 0, _, st => st
  | fuel + 1, i, st =>
    match st.cluster[i]? with
    | none => st
    | some bin =>
      holeFillScan ctx fuel (i + 1)
        (neighbourOffsets.foldl (holeFillCandidate ctx bin) st)

/-- The border test of the pruning phase, FindClusters line 495. -/
def pruneBorderSkip (ctx : Ctx) (bin : ℕ) : Prop :=
  (bin : ℤ) < (ctx.nbinsx : ℤ) ∨ (bin : ℤ) % (ctx.nbinsx : ℤ) = 0 ∨
    (bin : ℤ) % (ctx.nbinsx : ℤ) = (ctx.nbinsx : ℤ) - 1 ∨
    (bin : ℤ) ≥ (ctx.nbinsx : ℤ) * ((ctx.nbinsy : ℤ) - 1)

instance (ctx : Ctx) (bin : ℕ) : Decidable (pruneBorderSkip ctx bin) := by
  unfold pruneBorderSkip; infer_instance

/-- One pass of the pruning loop, FindClusters lines 491 to 504. The C++
loop walks the cluster from the last index down, so the recursion
processes the tail first and then decides the head with the already
updated mask: a non-border bin with fewer used neighbours than
fMinNeighbours is unmarked and dropped. The third component counts
removals (nremoved). -/
def pruneScan (ctx : Ctx) (used : ℕ → Bool) : List ℕ → ((ℕ → Bool) × List ℕ × ℕ)
  | [] => (used, [], 0)
  | bin :: rest =>
    let r := pruneScan ctx used rest
    if pruneBorderSkip ctx bin then (r.1, bin :: r.2.1, r.2.2)
    else if (numNeighbours ctx.nbinsx r.1 (bin : ℤ) : ℤ) < ctx.p.minNeighbours then
      (updUsed r.1 bin false, r.2.1, r.2.2 + 1)
    else (r.1, bin :: r.2.1, r.2.2)

/-- The pruning loop, FindClusters lines 487 to 508: repeat the pass
until one removes nothing. -/
def pruneLoop (ctx : Ctx) : ℕ → (ℕ → Bool) → List ℕ → ((ℕ → Bool) × List ℕ)
  | 0, used, cluster => (used, cluster)
  | fuel + 1, used, cluster =>
    let r := pruneScan ctx used cluster
    if r.2.2 = 0 then (r.1, r.2.1) else pruneLoop ctx fuel r.1 r.2.1

/-- The state threaded through the outer seeding loop: the used mask and
the accepted clusters (allcluster). -/
structure RunState where
  used : ℕ → Bool
  allcluster : List (List ℕ)

/-- Seeding of a new cluster, FindClusters lines 380 to 390: mark the
seed used, start the cluster with it, record its time when positive. -/
def seedState (ctx : Ctx) (used : ℕ → Bool) (bin : ℕ) : GrowState :=
  { used := updUsed used bin true
    cluster := [bin]
    times := if getTimeOfBin ctx.b ctx.hm ctx.nbinsx bin > 0 then
        [getTimeOfBin ctx.b ctx.hm ctx.nbinsx bin] else []
    nadded := 0 }

/-- The outer clustering loop of FindClusters, lines 365 to 523,
consuming the charge-sorted values list: stop when the next value is
below fMinSeed; skip used bins; otherwise seed, grow, apply the size
gate, fill holes, prune, apply the size gate again, and accept. -/
def findClustersLoop (ctx : Ctx) : List (ℚ × ℕ) → RunState → RunState
  | [], rs => rs
  | v :: rest, rs =>
    if v.1 < ctx.p.minSeed then rs
    else if rs.used v.2 then findClustersLoop ctx rest rs
    else
      let st1 := growLoop ctx (ctx.nbinsx * ctx.nbinsy + 1) (seedState ctx rs.used v.2)
      if st1.cluster.length < ctx.p.minSize then
        findClustersLoop ctx rest ⟨unmarkAll st1.used st1.cluster, rs.allcluster⟩
      else
        let st2 := holeFillScan ctx (ctx.nbinsx * ctx.nbinsy + 1) 0 st1
        let r := pruneLoop ctx (st2.cluster.length + 1) st2.used st2.cluster
        if r.2.length < ctx.p.minSize then
          findClustersLoop ctx rest ⟨unmarkAll r.1 r.2, rs.allcluster⟩
        else
          findClustersLoop ctx rest ⟨r.1, rs.allcluster ++ [r.2]⟩

/-- Descending lexicographic order on (charge, bin) pairs, as iterating
the std::sort result of FindClusters line 356 through rbegin/rend. -/
def pairLeDesc (a b : ℚ × ℕ) : Bool := decide (a.1 < b.1 ∨ (a.1 = b.1 ∧ a.2 ≤ b.2))

/-- Insertion into a descending-sorted list. -/
def insertDesc (x : ℚ × ℕ) : List (ℚ × ℕ) → List (ℚ × ℕ)
  | [] => [x]
  | y :: ys => if pairLeDesc y x then x :: y :: ys else y :: insertDesc x ys

/-- Descending sort of the values list. -/
def sortDesc : List (ℚ × ℕ) → List (ℚ × ℕ)
  | [] => []
  | x :: xs => insertDesc x (sortDesc xs)

/-- The values list of FindClusters lines 348 to 353: every (charge, bin)
pair with the x loop outer, then sorted into descending charge order. -/
def buildValues (ctx : Ctx) : List (ℚ × ℕ) :=
  sortDesc ((List.range ctx.nbinsx).flatMap (fun xbin =>
    (List.range ctx.nbinsy).map (fun ybin =>
      (convertBinToCharge ctx.blurred ctx.nbinsx (convertWireTickToBin ctx.nbinsx xbin ybin),
       convertWireTickToBin ctx.nbinsx xbin ybin))))

/-- FindClusters, lines 332 to 528: run the outer loop over the sorted
values starting from an all-false used mask and no clusters, returning
the accepted clusters and the final mask. -/
def findClusters (ctx : Ctx) : List (List ℕ) × (ℕ → Bool) :=
  let rs := findClustersLoop ctx (buildValues ctx) ⟨fun _ => false, []⟩
  (rs.allcluster, rs.used)

/-- Membership of a bin in some accepted cluster. -/
def inAccepted (acc : List (List ℕ)) (bin : ℕ) : Prop := ∃ c ∈ acc, bin ∈ c

/-- The invariant tying the used mask to the accepted clusters and the
cluster under construction: the current cluster has no duplicates, a bin
is marked used exactly when it lies in an accepted cluster or in the
current cluster, and the current cluster is disjoint from every accepted
cluster. -/
def Inv (acc : List (List ℕ)) (cur : List ℕ) (used : ℕ → Bool) : Prop :=
  cur.Nodup ∧ (∀ bin, used bin = true ↔ (inAccepted acc bin ∨ bin ∈ cur)) ∧
    (∀ bin ∈ cur, ¬ inAccepted acc bin)
/-- Pairwise disjointness of the accepted clusters. -/
def DisjointClusters (acc : List (List ℕ)) : Prop :=
  acc.Pairwise (fun c d => ∀ x ∈ c, x ∉ d)

/-- The invariant of the outer seeding loop: accepted clusters pairwise
disjoint and the used mask true exactly on their cells. -/
def Good (rs : RunState) : Prop :=
  DisjointClusters rs.allcluster ∧ ∀ j, rs.used j = true ↔ inAccepted rs.allcluster j

/-- Positivity of every recorded time. -/
def TimesPos (st : GrowState) : Prop := ∀ t ∈ st.times, 0 < t


/-- Concrete single hit for the round trip evaluation of C1. -/
def c1Hit : Hit := ⟨100, 200, 5, 2, 0⟩

/-- Concrete parameters for the hole filling evaluations. -/
def c3Params : ClusterParams := ⟨1, 1, 0, 0, 1, 0, 10, 0⟩

/-- Concrete context: empty hit map, zero image, 5 by 5 grid. -/
def c3Ctx : Ctx := ⟨c3Params, ⟨0, 5, 0, 5⟩, fun _ _ => none, fun _ _ => 0, 5, 5⟩

/-- Concrete grow state: bin 6 used, cluster holding bin 12, one
recorded time 100. -/
def c3State : GrowState := ⟨fun j => decide (j = 6), [12], [100], 0⟩

/-- Concrete grow state with no recorded times. -/
def c3WitState : GrowState := ⟨fun _ => false, [7], [], 0⟩

/-- Concrete hits on one cell with distinct charges. -/
def c7a : Hit := ⟨1, 10, 3, 5, 0⟩

/-- Concrete second hit on the same cell with the larger charge. -/
def c7b : Hit := ⟨1, 10, 7, 9, 1⟩

theorem Inv.admit {acc : List (List ℕ)} {cur : List ℕ} {used : ℕ → Bool} {bin : ℕ}
    (h : Inv acc cur used) (hb : used bin = false) :
    Inv acc (cur ++ [bin]) (updUsed used bin true) := by
  obtain ⟨hnd, hiff, hdisj⟩ := h
  have hbin : bin ∉ cur := by
    intro hm
    have := (hiff bin).2 (Or.inr hm)
    rw [hb] at this
    exact Bool.false_ne_true this
  have hbacc : ¬ inAccepted acc bin := by
    intro ha
    have := (hiff bin).2 (Or.inl ha)
    rw [hb] at this
    exact Bool.false_ne_true this
  refine ⟨by simp [List.nodup_append, hnd, hbin], ?_, ?_⟩
  · intro j
    by_cases hj : j = bin
    · subst hj
      simp [updUsed]
    · have hmem : (j ∈ cur ++ [bin]) ↔ j ∈ cur := by simp [hj]
      simp only [updUsed, if_neg hj, hmem]
      exact hiff j
  · intro j hj
    rcases List.mem_append.1 hj with hj | hj
    · exact hdisj j hj
    · simp only [List.mem_singleton] at hj
      subst hj
      exact hbacc

theorem Inv.remove_mid {acc : List (List ℕ)} {pre post : List ℕ} {used : ℕ → Bool} {bin : ℕ}
    (h : Inv acc (pre ++ bin :: post) used) :
    Inv acc (pre ++ post) (updUsed used bin false) := by
  obtain ⟨hnd, hiff, hdisj⟩ := h
  have hsub : List.Sublist (pre ++ post) (pre ++ bin :: post) :=
    List.Sublist.append_left (List.sublist_cons_self bin post) pre
  have hnd2 : (pre ++ post).Nodup := hsub.nodup hnd
  have hbin : bin ∉ pre ++ post := by
    intro hm
    rcases List.nodup_append.1 hnd with ⟨hp, hc, hdj⟩
    rcases List.mem_append.1 hm with hm | hm
    · exact hdj hm (List.mem_cons_self bin post)
    · exact (List.nodup_cons.1 hc).1 hm
  have hbacc : ¬ inAccepted acc bin := hdisj bin (by simp)
  refine ⟨hnd2, ?_, ?_⟩
  · intro j
    by_cases hj : j = bin
    · subst hj
      simp [updUsed, hbin, hbacc]
    · have hmem : (j ∈ pre ++ bin :: post) ↔ j ∈ pre ++ post := by
        simp [List.mem_append, List.mem_cons, hj]
      simp only [updUsed, if_neg hj]
      rw [hiff j, hmem]
  · intro j hj
    exact hdisj j (hsub.subset hj)

/-- Preservation of a predicate through a fold. -/
theorem foldl_preserves {α : Type} {P : GrowState → Prop} (f : GrowState → α → GrowState)
    (hf : ∀ st a, P st → P (f st a)) :
    ∀ (l : List α) (st : GrowState), P st → P (l.foldl f st)
  | [], _, h => h
  | a :: l, st, h => foldl_preserves f hf l (f st a) (hf st a h)

/-- A fold whose step fixes the state is the identity. -/
theorem foldl_id {α : Type} (f : GrowState → α → GrowState) (st : GrowState)
    (hf : ∀ c, f st c = st) : ∀ l : List α, l.foldl f st = st
  | [] => rfl
  | c :: l => by rw [List.foldl_cons, hf c, foldl_id f st hf l]

theorem growCandidate_inv {acc : List (List ℕ)} (ctx : Ctx) (binx biny : ℤ)
    (st : GrowState) (c : ℤ × ℤ) (h : Inv acc st.cluster st.used) :
    Inv acc (growCandidate ctx binx biny st c).cluster (growCandidate ctx binx biny st c).used := by
  unfold growCandidate
  split_ifs with h1 h2 h3 h4 h5
  · exact h
  · exact h
  · exact h
  · exact h
  · exact h.admit (by simpa using h3)
  · exact h

theorem growScanAux_inv {acc : List (List ℕ)} (ctx : Ctx) (fuel : ℕ) :
    ∀ (i : ℕ) (st : GrowState), Inv acc st.cluster st.used →
      Inv acc (growScanAux ctx fuel i st).cluster (growScanAux ctx fuel i st).used := by
  induction fuel with
  | zero => intro i st h; exact h
  | succ fuel ih =>
    intro i st h
    rw [growScanAux]
    cases hcl : st.cluster[i]? with
    | none => exact h
    | some bin =>
      exact ih (i + 1) _
        (foldl_preserves _ (fun st c hc => growCandidate_inv ctx _ _ st c hc) _ st h)

theorem growLoop_inv {acc : List (List ℕ)} (ctx : Ctx) (fuel : ℕ) :
    ∀ (st : GrowState), Inv acc st.cluster st.used →
      Inv acc (growLoop ctx fuel st).cluster (growLoop ctx fuel st).used := by
  induction fuel with
  | zero => intro st h; exact h
  | succ fuel ih =>
    intro st h
    have hscan := @growScanAux_inv acc ctx (ctx.nbinsx * ctx.nbinsy + 1) 0
      { st with nadded := 0 } h
    rw [growLoop]
    split_ifs with hn
    · exact hscan
    · exact ih _ hscan

theorem holeFillCandidate_inv {acc : List (List ℕ)} (ctx : Ctx) (bin : ℕ)
    (st : GrowState) (c : ℤ × ℤ) (h : Inv acc st.cluster st.used) :
    Inv acc (holeFillCandidate ctx bin st c).cluster (holeFillCandidate ctx bin st c).used := by
  unfold holeFillCandidate
  split_ifs with h1 h2
  · exact h
  · refine h.admit ?_
    rw [holeFillAdmit] at h2
    simp only [Bool.and_eq_true, Bool.not_eq_true'] at h2
    exact h2.1.1
  · exact h

theorem holeFillScan_inv {acc : List (List ℕ)} (ctx : Ctx) (fuel : ℕ) :
    ∀ (i : ℕ) (st : GrowState), Inv acc st.cluster st.used →
      Inv acc (holeFillScan ctx fuel i st).cluster (holeFillScan ctx fuel i st).used := by
  induction fuel with
  | zero => intro i st h; exact h
  | succ fuel ih =>
    intro i st h
    rw [holeFillScan]
    cases hcl : st.cluster[i]? with
    | none => exact h
    | some bin =>
      exact ih (i + 1) _
        (foldl_preserves _ (fun st c hc => holeFillCandidate_inv ctx bin st c hc) _ st h)

theorem pruneScan_inv {acc : List (List ℕ)} (ctx : Ctx) :
    ∀ (rest pre : List ℕ) (used : ℕ → Bool), Inv acc (pre ++ rest) used →
      Inv acc (pre ++ (pruneScan ctx used rest).2.1) (pruneScan ctx used rest).1 := by
  intro rest
  induction rest with
  | nil => intro pre used h; simpa [pruneScan] using h
  | cons bin rest ih =>
    intro pre used h
    have h2 : Inv acc ((pre ++ [bin]) ++ rest) used := by
      simpa [List.append_assoc] using h
    have h3 := ih (pre ++ [bin]) used h2
    rw [pruneScan]
    split_ifs with hb hn
    · simpa [List.append_assoc] using h3
    · refine @Inv.remove_mid acc pre (pruneScan ctx used rest).2.1 (pruneScan ctx used rest).1 bin ?_
      simpa [List.append_assoc] using h3
    · simpa [List.append_assoc] using h3

theorem pruneLoop_inv {acc : List (List ℕ)} (ctx : Ctx) (fuel : ℕ) :
    ∀ (used : ℕ → Bool) (cluster : List ℕ), Inv acc cluster used →
      Inv acc (pruneLoop ctx fuel used cluster).2 (pruneLoop ctx fuel used cluster).1 := by
  induction fuel with
  | zero => intro used cluster h; exact h
  | succ fuel ih =>
    intro used cluster h
    have h2 := @pruneScan_inv acc ctx cluster [] used (by simpa using h)
    simp only [List.nil_append] at h2
    rw [pruneLoop]
    split_ifs with hn
    · exact h2
    · exact ih _ _ h2

theorem unmarkAll_apply : ∀ (cells : List ℕ) (u : ℕ → Bool) (j : ℕ),
    unmarkAll u cells j = if j ∈ cells then false else u j
  | [], u, j => by simp [unmarkAll]
  | c :: cs, u, j => by
    have hrec := unmarkAll_apply cs (updUsed u c false) j
    simp only [unmarkAll, List.foldl_cons] at hrec ⊢
    rw [hrec]
    by_cases hj : j ∈ cs
    · simp [hj]
    · by_cases hc : j = c
      · subst hc
        simp [hj, updUsed]
      · simp [hj, hc, updUsed]

theorem Inv.unmark {acc : List (List ℕ)} {cur : List ℕ} {used : ℕ → Bool}
    (h : Inv acc cur used) :
    ∀ j, unmarkAll used cur j = true ↔ inAccepted acc j := by
  intro j
  rw [unmarkAll_apply]
  by_cases hj : j ∈ cur
  · simp only [if_pos hj, Bool.false_eq_true, false_iff]
    exact h.2.2 j hj
  · rw [if_neg hj, h.2.1 j]
    simp [hj]

theorem Good.toInv {rs : RunState} (h : Good rs) : Inv rs.allcluster [] rs.used :=
  ⟨List.nodup_nil, fun j => by rw [h.2 j]; simp, by simp⟩

theorem inAccepted_append_singleton (acc : List (List ℕ)) (cur : List ℕ) (j : ℕ) :
    inAccepted (acc ++ [cur]) j ↔ inAccepted acc j ∨ j ∈ cur := by
  unfold inAccepted
  constructor
  · rintro ⟨c, hc, hj⟩
    rcases List.mem_append.1 hc with hc | hc
    · exact Or.inl ⟨c, hc, hj⟩
    · simp only [List.mem_singleton] at hc
      subst hc
      exact Or.inr hj
  · rintro (⟨c, hc, hj⟩ | hj)
    · exact ⟨c, List.mem_append.2 (Or.inl hc), hj⟩
    · exact ⟨cur, List.mem_append.2 (Or.inr (by simp)), hj⟩

theorem Inv.accept {acc : List (List ℕ)} {cur : List ℕ} {used : ℕ → Bool}
    (hd : DisjointClusters acc) (h : Inv acc cur used) :
    Good ⟨used, acc ++ [cur]⟩ := by
  refine ⟨?_, ?_⟩
  · rw [DisjointClusters, List.pairwise_append]
    refine ⟨hd, List.pairwise_singleton _ _, ?_⟩
    intro a ha d hd2 x hx
    simp only [List.mem_singleton] at hd2
    subst hd2
    intro hxc
    exact h.2.2 x hxc ⟨a, ha, hx⟩
  · intro j
    rw [show (RunState.mk used (acc ++ [cur])).used = used from rfl]
    rw [h.2.1 j, inAccepted_append_singleton]

theorem findClustersLoop_good (ctx : Ctx) :
    ∀ (values : List (ℚ × ℕ)) (rs : RunState), Good rs →
      Good (findClustersLoop ctx values rs) := by
  intro values
  induction values with
  | nil => intro rs h; exact h
  | cons v rest ih =>
    intro rs h
    rw [findClustersLoop]
    dsimp only
    split_ifs with hseed huse hsize hsize2
    · exact h
    · exact ih rs h
    · -- first size gate discards
      have hub : rs.used v.2 = false := by simpa using huse
      have h1 : Inv rs.allcluster (seedState ctx rs.used v.2).cluster
          (seedState ctx rs.used v.2).used := by
        simpa [seedState] using h.toInv.admit hub
      have h2 := growLoop_inv ctx (ctx.nbinsx * ctx.nbinsy + 1) _ h1
      exact ih _ ⟨h.1, h2.unmark⟩
    · -- second size gate discards
      have hub : rs.used v.2 = false := by simpa using huse
      have h1 : Inv rs.allcluster (seedState ctx rs.used v.2).cluster
          (seedState ctx rs.used v.2).used := by
        simpa [seedState] using h.toInv.admit hub
      have h2 := growLoop_inv ctx (ctx.nbinsx * ctx.nbinsy + 1) _ h1
      have h3 := holeFillScan_inv ctx (ctx.nbinsx * ctx.nbinsy + 1) 0 _ h2
      exact ih _ ⟨h.1, (pruneLoop_inv ctx _ _ _ h3).unmark⟩
    · -- accept
      have hub : rs.used v.2 = false := by simpa using huse
      have h1 : Inv rs.allcluster (seedState ctx rs.used v.2).cluster
          (seedState ctx rs.used v.2).used := by
        simpa [seedState] using h.toInv.admit hub
      have h2 := growLoop_inv ctx (ctx.nbinsx * ctx.nbinsy + 1) _ h1
      have h3 := holeFillScan_inv ctx (ctx.nbinsx * ctx.nbinsy + 1) 0 _ h2
      exact ih _ ((pruneLoop_inv ctx _ _ _ h3).accept h.1)

theorem timesPos_update {times : List ℚ} {time t : ℚ} (h : ∀ u ∈ times, 0 < u)
    (ht : t ∈ if time > 0 then times ++ [time] else times) : 0 < t := by
  by_cases hp : time > 0
  · rw [if_pos hp] at ht
    rcases List.mem_append.1 ht with ht | ht
    · exact h t ht
    · simp only [List.mem_singleton] at ht
      subst ht
      exact hp
  · rw [if_neg hp] at ht
    exact h t ht

theorem growCandidate_timesPos (ctx : Ctx) (binx biny : ℤ) (st : GrowState) (c : ℤ × ℤ)
    (h : TimesPos st) : TimesPos (growCandidate ctx binx biny st c) := by
  unfold growCandidate
  split_ifs with h1 h2 h3 h4 h5
  · exact h
  · exact h
  · exact h
  · exact h
  · intro t ht
    exact timesPos_update h ht
  · exact h

theorem growScanAux_timesPos (ctx : Ctx) (fuel : ℕ) :
    ∀ (i : ℕ) (st : GrowState), TimesPos st → TimesPos (growScanAux ctx fuel i st) := by
  induction fuel with
  | zero => intro i st h; exact h
  | succ fuel ih =>
    intro i st h
    rw [growScanAux]
    cases hcl : st.cluster[i]? with
    | none => exact h
    | some bin =>
      exact ih (i + 1) _
        (foldl_preserves _ (fun st c hc => growCandidate_timesPos ctx _ _ st c hc) _ st h)

theorem growLoop_timesPos (ctx : Ctx) (fuel : ℕ) :
    ∀ (st : GrowState), TimesPos st → TimesPos (growLoop ctx fuel st) := by
  induction fuel with
  | zero => intro st h; exact h
  | succ fuel ih =>
    intro st h
    have hscan := growScanAux_timesPos ctx (ctx.nbinsx * ctx.nbinsy + 1) 0
      { st with nadded := 0 } h
    rw [growLoop]
    split_ifs with hn
    · exact hscan
    · exact ih _ hscan

theorem holeFillCandidate_timesPos (ctx : Ctx) (bin : ℕ) (st : GrowState) (c : ℤ × ℤ)
    (h : TimesPos st) : TimesPos (holeFillCandidate ctx bin st c) := by
  unfold holeFillCandidate
  split_ifs with h1 h2
  · exact h
  · intro t ht
    exact timesPos_update h ht
  · exact h

theorem holeFillScan_timesPos (ctx : Ctx) (fuel : ℕ) :
    ∀ (i : ℕ) (st : GrowState), TimesPos st → TimesPos (holeFillScan ctx fuel i st) := by
  induction fuel with
  | zero => intro i st h; exact h
  | succ fuel ih =>
    intro i st h
    rw [holeFillScan]
    cases hcl : st.cluster[i]? with
    | none => exact h
    | some bin =>
      exact ih (i + 1) _
        (foldl_preserves _ (fun st c hc => holeFillCandidate_timesPos ctx bin st c hc) _ st h)

theorem seedState_timesPos (ctx : Ctx) (used : ℕ → Bool) (bin : ℕ) :
    TimesPos (seedState ctx used bin) := by
  intro t ht
  simp only [seedState] at ht
  by_cases hp : getTimeOfBin ctx.b ctx.hm ctx.nbinsx bin > 0
  · rw [if_pos hp] at ht
    simp only [List.mem_singleton] at ht
    subst ht
    exact hp
  · rw [if_neg hp] at ht
    exact absurd ht (List.not_mem_nil t)

theorem holeFillCandidate_emptyTimes (ctx : Ctx) (bin : ℕ) (st : GrowState)
    (h : st.times = []) (c : ℤ × ℤ) : holeFillCandidate ctx bin st c = st := by
  unfold holeFillCandidate
  split_ifs with h1 h2
  · rfl
  · exfalso
    rw [holeFillAdmit, h] at h2
    simp [passesTimeCut] at h2
  · rfl

theorem upd2_same (f : ℤ → ℤ → ℚ) (a b : ℤ) (v : ℚ) : upd2 f a b v a b = v := by
  simp [upd2]

theorem updHitMap_same (m : ℤ → ℤ → Option Hit) (a b : ℤ) (h : Hit) :
    updHitMap m a b h a b = some h := by
  simp [updHitMap]

theorem fillHit_empty (b : ImgBounds) (h : Hit) (hc : 0 < h.integral) :
    fillHit b emptyImgState h =
      ⟨upd2 emptyImgState.image (h.wire - b.lowerHistWire) (h.tick - b.lowerHistTick) h.integral,
       upd2 emptyImgState.widths (h.wire - b.lowerHistWire) (h.tick - b.lowerHistTick) h.rms,
       updHitMap emptyImgState.hitMap h.wire h.tick h⟩ := by
  unfold fillHit
  exact if_pos hc

theorem fillHit_gt (b : ImgBounds) (st : ImgState) (h : Hit)
    (hc : h.integral > st.image (h.wire - b.lowerHistWire) (h.tick - b.lowerHistTick)) :
    fillHit b st h =
      ⟨upd2 st.image (h.wire - b.lowerHistWire) (h.tick - b.lowerHistTick) h.integral,
       upd2 st.widths (h.wire - b.lowerHistWire) (h.tick - b.lowerHistTick) h.rms,
       updHitMap st.hitMap h.wire h.tick h⟩ := by
  unfold fillHit
  exact if_pos hc

theorem fillHit_le (b : ImgBounds) (st : ImgState) (h : Hit)
    (hc : ¬ h.integral > st.image (h.wire - b.lowerHistWire) (h.tick - b.lowerHistTick)) :
    fillHit b st h = st := by
  unfold fillHit
  exact if_neg hc

theorem lsqSums_const_wire (w : ℤ) :
    ∀ (pts : List (ℤ × ℤ)) (s : LsqSums), (∀ p ∈ pts, p.1 = w) →
      (pts.foldl lsqStep s).nhits = s.nhits + pts.length ∧
      (pts.foldl lsqStep s).sumx = s.sumx + pts.length * (w : ℚ) ∧
      (pts.foldl lsqStep s).sumx2 = s.sumx2 + pts.length * ((w : ℚ) * (w : ℚ))
  | [], s, _ => by simp
  | p :: pts, s, h => by
    have hw : p.1 = w := h p (List.mem_cons_self p pts)
    have hrec := lsqSums_const_wire w pts (lsqStep s p)
      (fun q hq => h q (List.mem_cons_of_mem p hq))
    refine ⟨?_, ?_, ?_⟩
    · rw [List.foldl_cons, hrec.1]
      simp only [lsqStep, List.length_cons]
      push_cast
      ring
    · rw [List.foldl_cons, hrec.2.1]
      simp only [lsqStep, List.length_cons, hw]
      push_cast
      ring
    · rw [List.foldl_cons, hrec.2.2]
      simp only [lsqStep, List.length_cons, hw]
      push_cast
      ring

theorem searchKernelIndex_finds (kernels : List ℤ) :
    ∀ n : ℕ, (∃ m : ℕ, m ≤ n ∧ (m : ℤ) ∈ kernels) →
      ∃ k : ℕ, searchKernelIndex kernels n = some k ∧ (k : ℤ) ∈ kernels := by
  intro n
  induction n with
  | zero =>
    rintro ⟨m, hm, hmem⟩
    have hz : m = 0 := Nat.le_zero.1 hm
    subst hz
    have h0 : (0 : ℤ) ∈ kernels := by exact_mod_cast hmem
    exact ⟨0, by rw [searchKernelIndex, if_pos h0], h0⟩
  | succ n ih =>
    rintro ⟨m, hm, hmem⟩
    by_cases hn : ((n + 1 : ℕ) : ℤ) ∈ kernels
    · exact ⟨n + 1, by rw [searchKernelIndex, if_pos hn], hn⟩
    · have hm2 : m ≤ n := by
        by_cases hme : m = n + 1
        · exfalso
          subst hme
          exact hn (by exact_mod_cast hmem)
        · omega
      obtain ⟨k, hk, hkm⟩ := ih ⟨m, hm2, hmem⟩
      exact ⟨k, by rw [searchKernelIndex, if_neg hn, hk], hkm⟩

/-- Claim C1 (code bug, evaluated at a failing input): a hit at wire 100
and peak time 200 is stored in the hit index, its cell has local
coordinates (20, 20), yet looking up the linear bin of that same cell
through ConvertBinToRecobHit yields no hit: the lookup subtracts one
from each coordinate (a leftover of one-based ROOT histogram bins), so
it reads the cell at (wire - 1, tick - 1) and the round trip fails. -/
theorem C1_roundtrip_off_by_one :
    (convertRecobHitsToVector 4492 480 [c1Hit]).2.hitMap 100 200 = some c1Hit ∧
    100 - (computeBounds 4492 480 [c1Hit]).lowerHistWire = 20 ∧
    200 - (computeBounds 4492 480 [c1Hit]).lowerHistTick = 20 ∧
    convertBinToRecobHit (computeBounds 4492 480 [c1Hit])
      (convertRecobHitsToVector 4492 480 [c1Hit]).2.hitMap
      (imageWireDim (computeBounds 4492 480 [c1Hit])).toNat
      (convertWireTickToBin (imageWireDim (computeBounds 4492 480 [c1Hit])).toNat 20 20) =
      none := by
  decide

/-- Claim C2 (code bug, evaluated at a failing input): with zero hits and
the realistic provider values ReadOutWindowSize 4492 and MaxWires 480,
the image dimensions computed by ConvertRecobHitsToVector are 40 - 480
and 40 - 4492, both negative, so the vector constructor receives a
wrapped size_t and the pipeline errors instead of producing a minimal
empty image. -/
theorem C2_empty_input_negative_dims :
    imageWireDim (computeBounds 4492 480 []) = 40 - 480 ∧
    imageTickDim (computeBounds 4492 480 []) = 40 - 4492 ∧
    imageWireDim (computeBounds 4492 480 []) < 0 ∧
    imageTickDim (computeBounds 4492 480 []) < 0 := by
  decide

/-- Claim C3 counterexample: a synthetic cell (default time -10000) with
one used neighbour, unused, against a cluster with recorded time 100 and
time threshold 10: the code admission holeFillAdmit rejects it because
PassesTimeCut is applied unconditionally, while the admission claimed by
C3 (same time cut rule as in the growing phase, which lets synthetic
cells bypass the cut) accepts it. -/
theorem C3_holefill_time_rule_differs :
    holeFillAdmit c3Ctx c3State 7 (-10000) = false ∧
    holeFillAdmitClaimed c3Ctx c3State 7 (-10000) = true := by
  have hsub : (-10000 : ℚ) - 100 = -10100 := by norm_num
  have hp : passesTimeCut (10 : ℚ) [100] (-10000) = false := by
    simp only [passesTimeCut, List.any_cons, List.any_nil, Bool.or_false, hsub]
    norm_num [ratAbs]
  have hg : growTimeCutFails (10 : ℚ) [100] (-10000) = false := by
    unfold growTimeCutFails
    rw [decide_eq_false (by norm_num : ¬ ((-10000 : ℚ) > 0))]
    simp
  constructor
  · simp only [holeFillAdmit, c3Ctx, c3State, c3Params]
    rw [hp]
    simp
  · simp only [holeFillAdmitClaimed, c3Ctx, c3State, c3Params]
    rw [hg]
    decide

/-- Claim C3 (amended): in the hole filling phase the time cut is applied
unconditionally through PassesTimeCut, so when the cluster has no
recorded times the hole filling pass admits no cells at all and leaves
the state unchanged, instead of every candidate bypassing the time cut
as in the growing phase. -/
theorem C3_holefill_empty_times_admits_nothing (ctx : Ctx) (fuel : ℕ) :
    ∀ (i : ℕ) (st : GrowState), st.times = [] → holeFillScan ctx fuel i st = st := by
  induction fuel with
  | zero => intro i st h; rfl
  | succ fuel ih =>
    intro i st h
    rw [holeFillScan]
    cases hcl : st.cluster[i]? with
    | none => rfl
    | some bin =>
      show holeFillScan ctx fuel (i + 1) (neighbourOffsets.foldl (holeFillCandidate ctx bin) st) = st
      rw [foldl_id (holeFillCandidate ctx bin) st
        (holeFillCandidate_emptyTimes ctx bin st h) neighbourOffsets]
      exact ih (i + 1) st h

/-- Witness for the amended C3 theorem at a concrete state with an empty
times list. -/
theorem C3_holefill_empty_times_witness :
    holeFillScan c3Ctx 3 0 c3WitState = c3WitState :=
  C3_holefill_empty_times_admits_nothing c3Ctx 3 0 c3WitState rfl

/-- Claim C4 counterexample: with blur tick radius 1 and tier ceiling 2
the half extent of the kernel tick window in the code is
blurtick times (ceiling + 1) = 3, not blurtick times ceiling = 2 as the
claim states. -/
theorem C4_tick_window_not_ceiling : codeTickHalfWindow 1 2 ≠ 1 * 2 := by decide

/-- Claim C4 (amended): for every tier the kernel tick sigma is the base
tick sigma multiplied by the tier, the kernel height is the single value
2 blurtick (ceiling + 1) + 1 shared by all tiers, the tick window half
extent is blurtick times (ceiling + 1) rather than blurtick times the
ceiling, and the weight at offset (i, j) equals the product of the two
zero-mean Gaussian densities of the spec with no renormalisation. -/
theorem C4_kernel_construction (sigmawire sigmatick tier blurtick maxScale : ℤ) (i j : ℤ) :
    sigmaTickScaled sigmatick tier = sigmatick * tier ∧
    kernelHeight blurtick maxScale = 2 * blurtick * (maxScale + 1) + 1 ∧
    codeTickHalfWindow blurtick maxScale = blurtick * (maxScale + 1) ∧
    codeKernelValue sigmawire sigmatick tier i j =
      specGaussPair (sigmawire : ℝ) ((sigmatick * tier : ℤ) : ℝ) (i : ℝ) (j : ℝ) := by
  refine ⟨rfl, rfl, rfl, ?_⟩
  unfold codeKernelValue specGaussPair sigmaTickScaled
  rw [show (2 : ℝ) * ((sigmawire : ℤ) : ℝ) * ((sigmawire : ℤ) : ℝ) * Real.pi
        = 2 * Real.pi * ((sigmawire : ℤ) : ℝ) ^ 2 by ring]
  rw [show (2 : ℝ) * ((sigmatick * tier : ℤ) : ℝ) * ((sigmatick * tier : ℤ) : ℝ) * Real.pi
        = 2 * Real.pi * ((sigmatick * tier : ℤ) : ℝ) ^ 2 by ring]
  rw [show -((i : ℤ) : ℝ) * ((i : ℤ) : ℝ) / (2 * ((sigmawire : ℤ) : ℝ) * ((sigmawire : ℤ) : ℝ))
        = -(((i : ℤ) : ℝ) ^ 2) / (2 * ((sigmawire : ℤ) : ℝ) ^ 2) by ring]
  rw [show -((j : ℤ) : ℝ) * ((j : ℤ) : ℝ) /
        (2 * ((sigmatick * tier : ℤ) : ℝ) * ((sigmatick * tier : ℤ) : ℝ))
        = -(((j : ℤ) : ℝ) ^ 2) / (2 * ((sigmatick * tier : ℤ) : ℝ) ^ 2) by ring]
  ring

/-- Claim C5 (code bug, evaluated at a failing input): on any hit set
collinear along one wire the denominator of the least squares gradient
is exactly zero, in particular for the two points (5, 10) and (5, 20);
FindBlurringParameters divides by it with no guard, so the IEEE result
is NaN or infinite and propagates into the blur radii and sigmas. -/
theorem C5_collinear_denominator_zero :
    lsqDenominator [(5, 10), (5, 20)] = 0 ∧
    ∀ (w : ℤ) (pts : List (ℤ × ℤ)), (∀ p ∈ pts, p.1 = w) → lsqDenominator pts = 0 := by
  have hgen : ∀ (w : ℤ) (pts : List (ℤ × ℤ)), (∀ p ∈ pts, p.1 = w) →
      lsqDenominator pts = 0 := by
    intro w pts h
    obtain ⟨h1, h2, h3⟩ := lsqSums_const_wire w pts ⟨0, 0, 0, 0, 0⟩ h
    unfold lsqDenominator lsqSums
    rw [h1, h2, h3]
    ring
  exact ⟨hgen 5 [(5, 10), (5, 20)] (by decide), hgen⟩

/-- Witness for C5: the collinearity hypothesis holds at the concrete
point list and the denominator evaluates to zero. -/
theorem C5_collinear_witness : lsqDenominator [(5, 10), (5, 20)] = 0 :=
  C5_collinear_denominator_zero.2 5 [(5, 10), (5, 20)] (by decide)

/-- Claim C6: when the configured tier set contains 1 (equivalently the
reconfigure check passes; its violation is the fatal configuration
error, shown in the second conjunct) and the tier ceiling is at least 1,
the computed tier of every source cell is clamped into [1, ceiling] and
the downward kernel search terminates with a configured tier, so the
kernel lookup never fails. -/
theorem C6_kernel_lookup_never_fails (kernels : List ℤ) (maxScale rawScale : ℤ)
    (hcfg : (1 : ℤ) ∈ kernels) (hM : 1 ≤ maxScale) :
    reconfigureCheck kernels = Except.ok () ∧
    (∀ ks2 : List ℤ, (1 : ℤ) ∉ ks2 → ∃ msg, reconfigureCheck ks2 = Except.error msg) ∧
    1 ≤ clampTickScale rawScale maxScale ∧
    clampTickScale rawScale maxScale ≤ maxScale ∧
    ∃ k : ℕ, searchKernelIndex kernels (clampTickScale rawScale maxScale).toNat = some k ∧
      (k : ℤ) ∈ kernels := by
  refine ⟨by rw [reconfigureCheck, if_pos hcfg], ?_, le_max_right _ _,
    max_le (min_le_right _ _) hM, ?_⟩
  · intro ks2 h2
    exact ⟨_, by rw [reconfigureCheck, if_neg h2]⟩
  · refine searchKernelIndex_finds kernels _ ⟨1, ?_, by exact_mod_cast hcfg⟩
    have h1 : 1 ≤ clampTickScale rawScale maxScale := le_max_right _ _
    omega

/-- Witness for C6 at the tier set [3, 1] with ceiling 3 and raw scale 7. -/
theorem C6_kernel_lookup_witness :
    1 ≤ clampTickScale 7 3 ∧ clampTickScale 7 3 ≤ 3 ∧
    ∃ k : ℕ, searchKernelIndex [3, 1] (clampTickScale 7 3).toNat = some k ∧
      (k : ℤ) ∈ ([3, 1] : List ℤ) :=
  ⟨(C6_kernel_lookup_never_fails [3, 1] 3 7 (by decide) (by decide)).2.2.1,
   (C6_kernel_lookup_never_fails [3, 1] 3 7 (by decide) (by decide)).2.2.2.1,
   (C6_kernel_lookup_never_fails [3, 1] 3 7 (by decide) (by decide)).2.2.2.2⟩

/-- Claim C7: two hits with positive distinct charges landing on the same
integer cell: after the fill loop the charge image at that cell holds
the maximum of the two charges, the width image holds the RMS of the
higher charge hit, and the hit index resolves the cell to the higher
charge hit (the other is evicted or never stored). -/
theorem C7_charge_max_merge (ro mw : ℤ) (h1 h2 : Hit)
    (hw : h1.wire = h2.wire) (ht : h1.tick = h2.tick)
    (hc1 : 0 < h1.integral) (hc2 : 0 < h2.integral) (hne : h1.integral ≠ h2.integral) :
    (convertRecobHitsToVector ro mw [h1, h2]).2.image
        (h1.wire - (computeBounds ro mw [h1, h2]).lowerHistWire)
        (h1.tick - (computeBounds ro mw [h1, h2]).lowerHistTick)
      = max h1.integral h2.integral ∧
    (convertRecobHitsToVector ro mw [h1, h2]).2.widths
        (h1.wire - (computeBounds ro mw [h1, h2]).lowerHistWire)
        (h1.tick - (computeBounds ro mw [h1, h2]).lowerHistTick)
      = (if h1.integral < h2.integral then h2 else h1).rms ∧
    (convertRecobHitsToVector ro mw [h1, h2]).2.hitMap h1.wire h1.tick
      = some (if h1.integral < h2.integral then h2 else h1) := by
  have e2w : h2.wire = h1.wire := hw.symm
  have e2t : h2.tick = h1.tick := ht.symm
  have hrun : (convertRecobHitsToVector ro mw [h1, h2]).2
      = fillHit (computeBounds ro mw [h1, h2])
          (fillHit (computeBounds ro mw [h1, h2]) emptyImgState h1) h2 := rfl
  set b := computeBounds ro mw [h1, h2] with hbdef
  rw [hrun, fillHit_empty b h1 hc1]
  have hread : upd2 emptyImgState.image (h1.wire - b.lowerHistWire)
      (h1.tick - b.lowerHistTick) h1.integral (h2.wire - b.lowerHistWire)
      (h2.tick - b.lowerHistTick) = h1.integral := by
    rw [e2w, e2t, upd2_same]
  rcases lt_or_gt_of_ne hne with hlt | hgt
  · rw [fillHit_gt b _ h2 (by rw [show (⟨upd2 emptyImgState.image (h1.wire - b.lowerHistWire)
        (h1.tick - b.lowerHistTick) h1.integral,
        upd2 emptyImgState.widths (h1.wire - b.lowerHistWire) (h1.tick - b.lowerHistTick) h1.rms,
        updHitMap emptyImgState.hitMap h1.wire h1.tick h1⟩ : ImgState).image
          = upd2 emptyImgState.image (h1.wire - b.lowerHistWire)
            (h1.tick - b.lowerHistTick) h1.integral from rfl, hread]; exact hlt)]
    refine ⟨?_, ?_, ?_⟩
    · show upd2 _ (h2.wire - b.lowerHistWire) (h2.tick - b.lowerHistTick) h2.integral
        (h1.wire - b.lowerHistWire) (h1.tick - b.lowerHistTick) = _
      rw [e2w, e2t, upd2_same, max_eq_right hlt.le]
    · show upd2 _ (h2.wire - b.lowerHistWire) (h2.tick - b.lowerHistTick) h2.rms
        (h1.wire - b.lowerHistWire) (h1.tick - b.lowerHistTick) = _
      rw [e2w, e2t, upd2_same, if_pos hlt]
    · show updHitMap _ h2.wire h2.tick h2 h1.wire h1.tick = _
      rw [e2w, e2t, updHitMap_same, if_pos hlt]
  · rw [fillHit_le b _ h2 (by rw [show (⟨upd2 emptyImgState.image (h1.wire - b.lowerHistWire)
        (h1.tick - b.lowerHistTick) h1.integral,
        upd2 emptyImgState.widths (h1.wire - b.lowerHistWire) (h1.tick - b.lowerHistTick) h1.rms,
        updHitMap emptyImgState.hitMap h1.wire h1.tick h1⟩ : ImgState).image
          = upd2 emptyImgState.image (h1.wire - b.lowerHistWire)
            (h1.tick - b.lowerHistTick) h1.integral from rfl, hread]; exact not_lt.2 hgt.le)]
    refine ⟨?_, ?_, ?_⟩
    · show upd2 emptyImgState.image (h1.wire - b.lowerHistWire)
        (h1.tick - b.lowerHistTick) h1.integral
        (h1.wire - b.lowerHistWire) (h1.tick - b.lowerHistTick) = _
      rw [upd2_same, max_eq_left hgt.le]
    · show upd2 emptyImgState.widths (h1.wire - b.lowerHistWire)
        (h1.tick - b.lowerHistTick) h1.rms
        (h1.wire - b.lowerHistWire) (h1.tick - b.lowerHistTick) = _
      rw [upd2_same, if_neg (not_lt.2 hgt.le)]
    · show updHitMap emptyImgState.hitMap h1.wire h1.tick h1 h1.wire h1.tick = _
      rw [updHitMap_same, if_neg (not_lt.2 hgt.le)]

/-- Witness for C7 at two concrete hits on the same cell with charges 3
and 7. -/
theorem C7_charge_max_witness :
    (convertRecobHitsToVector 4492 480 [c7a, c7b]).2.image
        (c7a.wire - (computeBounds 4492 480 [c7a, c7b]).lowerHistWire)
        (c7a.tick - (computeBounds 4492 480 [c7a, c7b]).lowerHistTick)
      = max c7a.integral c7b.integral ∧
    (convertRecobHitsToVector 4492 480 [c7a, c7b]).2.widths
        (c7a.wire - (computeBounds 4492 480 [c7a, c7b]).lowerHistWire)
        (c7a.tick - (computeBounds 4492 480 [c7a, c7b]).lowerHistTick)
      = (if c7a.integral < c7b.integral then c7b else c7a).rms ∧
    (convertRecobHitsToVector 4492 480 [c7a, c7b]).2.hitMap c7a.wire c7a.tick
      = some (if c7a.integral < c7b.integral then c7b else c7a) :=
  C7_charge_max_merge 4492 480 c7a c7b rfl (by decide) (by decide) (by decide) (by decide)

/-- Claim C8 counterexample: configuration blur radii 1 and 1, tier
ceiling 5, tier set containing 1, a source cell of width 5 with rescale
factor 1: the clamped tick scale is 5, the offsets blurx 1 and blury 9
are iterated by the blur loops, and the kernel index evaluates to 47
while the kernel vector has only 39 entries, so the weight lookup
throws. -/
theorem C8_kernel_index_out_of_bounds :
    clampTickScale (tickScaleRaw 5 1) 5 = 5 ∧
    lowerWidth 1 ≤ 1 ∧ 1 < upperWidth 1 ∧
    lowerHeight 1 * 5 ≤ 9 ∧ 9 < upperHeight 1 * 5 ∧
    convolveKey 1 1 5 1 9 = 47 ∧ kernelFlatSize 1 1 5 = 39 ∧
    ¬ convolveKey 1 1 5 1 9 < kernelFlatSize 1 1 5 := by
  have hts : tickScaleRaw 5 1 = 5 := by
    unfold tickScaleRaw
    rw [show ((5 : ℚ) / 1) = 5 by norm_num]
    decide
  rw [hts]
  exact ⟨by decide, by decide, by decide, by decide, by decide, by decide, by decide, by decide⟩

/-- Claim C8 (amended): the kernel index stays within the flat kernel
vector for every iterated offset provided additionally that the clamped
tick scale does not exceed blurtick + 1 (the counterexample shows the
bound fails without this restriction, because the upper blury bound
scales upperHeight = blurtick + 1 by the tick scale while the kernel
only extends blurtick times (ceiling + 1) rows above centre). -/
theorem C8_kernel_index_in_bounds (bw bt M ts blurx blury : ℤ)
    (hbw : 1 ≤ bw) (hbt : 1 ≤ bt) (hM : 1 ≤ M)
    (hts1 : 1 ≤ ts) (htsM : ts ≤ M) (htsbt : ts ≤ bt + 1)
    (hx1 : lowerWidth bw ≤ blurx) (hx2 : blurx < upperWidth bw)
    (hy1 : lowerHeight bt * ts ≤ blury) (hy2 : blury < upperHeight bt * ts) :
    0 ≤ convolveKey bw bt M blurx blury ∧
      convolveKey bw bt M blurx blury < kernelFlatSize bw bt M := by
  have hlw : lowerWidth bw = -bw := by
    unfold lowerWidth kernelWidth
    rw [Int.neg_tdiv, Int.tdiv_eq_ediv (by omega) (by omega)]
    omega
  have huw : upperWidth bw = bw + 1 := by
    unfold upperWidth kernelWidth
    rw [Int.tdiv_eq_ediv (by omega) (by omega)]
    omega
  have hlh : lowerHeight bt = -bt := by
    unfold lowerHeight
    rw [Int.neg_tdiv, Int.tdiv_eq_ediv (by omega) (by omega)]
    omega
  have huh : upperHeight bt = bt + 1 := by
    unfold upperHeight
    rw [Int.tdiv_eq_ediv (by omega) (by omega)]
    omega
  have hbtM : (0 : ℤ) ≤ bt * (M + 1) := by nlinarith
  have hkh2 : (kernelHeight bt M).tdiv 2 = bt * (M + 1) := by
    have hkh : kernelHeight bt M = 2 * (bt * (M + 1)) + 1 := by
      unfold kernelHeight kernelScale
      ring
    rw [hkh]
    generalize hgen : bt * (M + 1) = k at hbtM
    rw [Int.tdiv_eq_ediv (by omega) (by omega)]
    omega
  have hkw2 : (kernelWidth bw).tdiv 2 = bw := by
    unfold kernelWidth
    rw [Int.tdiv_eq_ediv (by omega) (by omega)]
    omega
  rw [hlw] at hx1
  rw [huw] at hx2
  rw [hlh] at hy1
  rw [huh] at hy2
  have hcol1 : 0 ≤ bw + blurx := by omega
  have hcol2 : bw + blurx ≤ 2 * bw := by omega
  have hmul : bt * ts ≤ bt * M := by nlinarith
  have hrow1 : 0 ≤ bt * (M + 1) + blury := by nlinarith
  have hrow2 : bt * (M + 1) + blury ≤ 2 * (bt * (M + 1)) := by nlinarith
  have hpos : (0 : ℤ) ≤ 2 * bw + 1 := by omega
  have hm0 : 0 ≤ (2 * bw + 1) * (bt * (M + 1) + blury) := mul_nonneg hpos hrow1
  have hm1 : (2 * bw + 1) * (bt * (M + 1) + blury) ≤ (2 * bw + 1) * (2 * (bt * (M + 1))) :=
    mul_le_mul_of_nonneg_left hrow2 hpos
  have hkey : convolveKey bw bt M blurx blury
      = (2 * bw + 1) * (bt * (M + 1) + blury) + (bw + blurx) := by
    unfold convolveKey
    rw [hkh2, hkw2]
    unfold kernelWidth
    ring
  have hsize : kernelFlatSize bw bt M
      = (2 * bw + 1) * (2 * (bt * (M + 1))) + (2 * bw + 1) := by
    unfold kernelFlatSize kernelWidth kernelHeight kernelScale
    ring
  rw [hkey, hsize]
  constructor
  · linarith
  · linarith

/-- Witness for the amended C8 theorem at blur radii 1 and 1, ceiling 2,
tick scale 2, offset (0, 3). -/
theorem C8_kernel_index_witness :
    0 ≤ convolveKey 1 1 2 0 3 ∧ convolveKey 1 1 2 0 3 < kernelFlatSize 1 1 2 :=
  C8_kernel_index_in_bounds 1 1 2 2 0 3 (by decide) (by decide) (by decide) (by decide)
    (by decide) (by decide) (by decide) (by decide) (by decide) (by decide)

/-- Claim C9: the accepted cell clusters returned by one FindClusters run
are pairwise disjoint, and the final used mask is true exactly on the
cells belonging to some accepted cluster: discarded clusters are fully
unmarked and accepted clusters stay marked. -/
theorem C9_clusters_disjoint_and_mask_exact (ctx : Ctx) :
    DisjointClusters (findClusters ctx).1 ∧
    ∀ bin, (findClusters ctx).2 bin = true ↔ ∃ c ∈ (findClusters ctx).1, bin ∈ c := by
  have h := findClustersLoop_good ctx (buildValues ctx) ⟨fun _ => false, []⟩
    ⟨List.Pairwise.nil, by intro j; simp [inAccepted]⟩
  exact ⟨h.1, fun bin => h.2 bin⟩

/-- Claim C10: cells whose hit has a non positive time behave like
synthetic cells: GetTimeOfBin defaults to -10000 exactly on cells absent
from the hit index, every time recorded by seeding, growing or hole
filling is strictly positive, and a candidate whose time is not strictly
positive is never rejected by the growing phase time cut guard. -/
theorem C10_nonpositive_time_like_synthetic :
    (∀ (b : ImgBounds) (hm : ℤ → ℤ → Option Hit) (nbinsx bin : ℕ),
      convertBinToRecobHit b hm nbinsx bin = none →
      getTimeOfBin b hm nbinsx bin = -10000) ∧
    (∀ (ctx : Ctx) (used : ℕ → Bool) (bin : ℕ), TimesPos (seedState ctx used bin)) ∧
    (∀ (ctx : Ctx) (fuel : ℕ) (st : GrowState), TimesPos st → TimesPos (growLoop ctx fuel st)) ∧
    (∀ (ctx : Ctx) (fuel i : ℕ) (st : GrowState), TimesPos st →
      TimesPos (holeFillScan ctx fuel i st)) ∧
    (∀ (thr : ℚ) (times : List ℚ) (time : ℚ), ¬ 0 < time →
      growTimeCutFails thr times time = false) := by
  refine ⟨?_, seedState_timesPos, ?_, ?_, ?_⟩
  · intro b hm nbinsx bin hnone
    unfold getTimeOfBin
    rw [hnone]
  · intro ctx fuel st h
    exact growLoop_timesPos ctx fuel st h
  · intro ctx fuel i st h
    exact holeFillScan_timesPos ctx fuel i st h
  · intro thr times time hnp
    unfold growTimeCutFails
    rw [decide_eq_false hnp]
    simp

/-- Witness for C10: the synthetic default at an empty hit map, and the
growing phase guard not firing for the non positive time 0. -/
theorem C10_nonpositive_time_witness :
    getTimeOfBin ⟨0, 0, 0, 0⟩ (fun _ _ => none) 1 0 = -10000 ∧
    growTimeCutFails 5 [3] 0 = false :=
  ⟨C10_nonpositive_time_like_synthetic.1 ⟨0, 0, 0, 0⟩ (fun _ _ => none) 1 0 rfl,
   C10_nonpositive_time_like_synthetic.2.2.2.2 5 [3] 0 (by norm_num)⟩

end BlurredClustering
